import Mathlib

/-!
Verification of the row-materialization pipeline of
`src/lib/rome/core/rows/rows.py` (project `rome`).

The Python code is shallowly embedded: Python values flowing through the
pipeline are modelled by the inductive type `PyVal`, entity ("model")
objects by `PyModel`, and the selectables of a request by `Selectable`.
External collaborators that the spec declares out of scope — the object
store (`get_objects`), the pluggable tuple-building strategy, and the
decoder returned by `get_decoder` — are parameters of the embedded
functions.  Instrumentation (timestamps and logging) is not modelled:
per spec section 2 it is non-functional and does not affect output.
-/

namespace Rome

/-- Embedding of the Python values flowing through the pipeline: `None`,
primitives (`int`, `float`, `str`, `unicode`, `bool`), dictionaries,
attribute-style objects, lists, and `LazyValue` wrappers carrying a
request uuid.  The `isNova` flag of `obj` records whether the object is a
raw "novabase" entity object (composites such as `KeyedTuple` use
`false`).  The payload of `float` is abstract: no floating-point
arithmetic occurs in the embedded code, the pipeline only inspects the
type name.  Request uuids are modelled as naturals. -/
inductive PyVal where
  | none
  | int (n : Int)
  | float (payload : Int)
  | str (s : String)
  | unicode (s : String)
  | bool (b : Bool)
  | dict (entries : List (String × PyVal))
  | obj (isNova : Bool) (fields : List (String × PyVal))
  | list (elems : List PyVal)
  | lazy (v : PyVal) (request_uuid : Nat)

/-- Python `type(value).__name__` for the modelled value shapes. -/
def typeName : PyVal → String
  | .none => "NoneType"
  | .int _ => "int"
  | .float _ => "float"
  | .str _ => "str"
  | .unicode _ => "unicode"
  | .bool _ => "bool"
  | .dict _ => "dict"
  | .obj _ _ => "object"
  | .list _ => "list"
  | .lazy _ _ => "LazyValue"

/-- Python `value is None`. -/
def PyVal.isNone : PyVal → Bool
  | .none => true
  | _ => false

/-- Embedding of `has_attribute` (rows.py lines 40-44): mapping-style
values check key membership, everything else goes through Python
`hasattr`.  Attribute-style objects carry their attributes as an explicit
field list; built-in attributes of primitive values (the methods of
`int`, `str`, ...) are not domain attributes and are not modelled. -/
def has_attribute (o : PyVal) (key : String) : Bool :=
  match o with
  | .dict entries => entries.any (fun e => e.1 == key)
  | .obj _ fields => fields.any (fun e => e.1 == key)
  | _ => false

/-- Embedding of `get_attribute` (rows.py lines 54-58). -/
def get_attribute (o : PyVal) (key : String) (default : PyVal) : PyVal :=
  match o with
  | .dict entries =>
    match entries.lookup key with
    | Option.some v => v
    | Option.none => default
  | .obj _ fields =>
    match fields.lookup key with
    | Option.some v => v
    | Option.none => default
  | _ => default

/-- Modelled from the spec: `is_novabase` lives in `lib.rome.core.utils`,
which is not under `src/`.  Spec section 3 ("Row: an ordered, labeled
collection of raw objects, or a single raw object") and section 4.6
("fetch the sub-value for that entity's label if the row is a composite
and has that label, else use the row itself") make it the test that
distinguishes a raw entity ("novabase") object from composites and other
values: it holds exactly of raw entity objects. -/
def is_novabase (o : PyVal) : Bool :=
  match o with
  | .obj isNova _ => isNova
  | _ => false

/-- A `table` descriptor exposing a name (second resolution shape of
`find_table_name`). -/
structure TableDescr where
  name : String
deriving DecidableEq

/-- A mapped `class_` exposing a table name and an sqlalchemy class
manager.  The class manager is modelled as the association list from
attribute (field) name to the `__str__()` rendering of the instrumented
attribute (which is what rows.py reads from it). -/
structure MappedClass where
  tablename : String
  sa_class_manager : List (String × String)
deriving DecidableEq

/-- An entity ("model") object.  Each `Option` field models the presence
or absence of the corresponding Python attribute: `__tablename__`,
`table`, `class_`, `clauses` (presence flag `hasClauses` plus the clause
list), `_sa_class_manager`, and `_secondary_indexes`.  Python compares
model objects by identity; the embedding uses structural equality as its
stand-in. -/
inductive PyModel where
  | mk (tablename : Option String) (table : Option TableDescr)
       (class_ : Option MappedClass) (hasClauses : Bool) (clauses : List PyModel)
       (sa_class_manager : Option (List (String × String)))
       (secondary_indexes : Option (List String))

mutual

def pyModelDecEq : (a b : PyModel) → Decidable (a = b)
  | .mk t1 tb1 c1 h1 cl1 m1 s1, .mk t2 tb2 c2 h2 cl2 m2 s2 =>
    if ht : t1 = t2 then
      if htb : tb1 = tb2 then
        if hc : c1 = c2 then
          if hh : h1 = h2 then
            match pyModelListDecEq cl1 cl2 with
            | isTrue hcl =>
              if hm : m1 = m2 then
                if hs : s1 = s2 then
                  isTrue (by rw [ht, htb, hc, hh, hcl, hm, hs])
                else isFalse (by intro h; injection h; contradiction)
              else isFalse (by intro h; injection h; contradiction)
            | isFalse hcl => isFalse (by intro h; injection h; contradiction)
          else isFalse (by intro h; injection h; contradiction)
        else isFalse (by intro h; injection h; contradiction)
      else isFalse (by intro h; injection h; contradiction)
    else isFalse (by intro h; injection h; contradiction)

def pyModelListDecEq : (a b : List PyModel) → Decidable (a = b)
  | [], [] => isTrue rfl
  | [], _ :: _ => isFalse (by intro h; injection h)
  | _ :: _, [] => isFalse (by intro h; injection h)
  | a :: as, b :: bs =>
    match pyModelDecEq a b with
    | isTrue h1 =>
      match pyModelListDecEq as bs with
      | isTrue h2 => isTrue (by rw [h1, h2])
      | isFalse h2 => isFalse (by intro h; injection h; contradiction)
    | isFalse h1 => isFalse (by intro h; injection h; contradiction)

end

instance : DecidableEq PyModel := pyModelDecEq

/-- Projection: the `class_` attribute of a model, when present. -/
def PyModel.class_ : PyModel → Option MappedClass
  | .mk _ _ c _ _ _ _ => c

/-- Projection: the `_sa_class_manager` attribute of a model, when
present. -/
def PyModel.sa_class_manager : PyModel → Option (List (String × String))
  | .mk _ _ _ _ _ m _ => m

/-- Projection: the `_secondary_indexes` attribute of a model, when
present. -/
def PyModel.secondary_indexes : PyModel → Option (List String)
  | .mk _ _ _ _ _ _ s => s

/-- Embedding of `find_table_name` (rows.py lines 61-76): try
`__tablename__`, then `table.name`, then `class_.__tablename__`, then —
when a `clauses` attribute is present — return the recursive resolution
of the first clause (the loop body returns unconditionally on the first
iteration); otherwise the sentinel `"none"`. -/
def find_table_name : PyModel → String
  | .mk tn tbl cls hc cl _ _ =>
    match tn with
    | Option.some s => s
    | Option.none =>
      match tbl with
      | Option.some t => t.name
      | Option.none =>
        match cls with
        | Option.some c => c.tablename
        | Option.none =>
          if hc then
            match cl with
            | c :: _ => find_table_name c
            | [] => "none"
          else "none"

/-- A selectable of a request: an entity reference, a requested attribute
specification (`"*"` or a single attribute name), the function/hidden
flags, and — for function selectables — the computed-column callable
taking the full row set.  In the source the callable is stored as the
`_function` field of the `_function` descriptor
(`selection._function._function`); the embedding flattens the
indirection. -/
structure Selectable where
  _model : PyModel
  _attributes : String
  _is_function : Bool
  is_hidden : Bool
  _function : List PyVal → PyVal

/-- Embedding of `all_selectables_are_functions` (rows.py lines 32-33). -/
def all_selectables_are_functions (models : List Selectable) : Bool :=
  (models.filter (fun y => !y.is_hidden)).all (fun x => x._is_function)

/-- Embedding of `any_selectable_is_function` (rows.py lines 36-37). -/
def any_selectable_is_function (models : List Selectable) : Bool :=
  (models.filter (fun y => !y.is_hidden)).any (fun x => x._is_function)

/-- Recursive worker of `extract_models`: `processed` is the
`already_processed` set, modelled as the list of models seen so far. -/
def extract_models_go : List Selectable → List PyModel → List Selectable
  | [], _ => []
  | s :: rest, processed =>
    if processed.contains s._model then extract_models_go rest processed
    else s :: extract_models_go rest (s._model :: processed)

/-- Embedding of `extract_models` (rows.py lines 79-86): drop function
selectables, keep the first selectable for each distinct model. -/
def extract_models (l : List Selectable) : List Selectable :=
  extract_models_go (l.filter (fun x => !x._is_function)) []

/-- An index hint: `(table name, attribute name, expected value)`. -/
structure Hint where
  table_name : String
  attribute_ : String
  value : PyVal

/-- Embedding of the hint filter (rows.py line 207): keep a hint when its
table name matches the model's resolved table name and its attribute is
`"id"` or one of the model's declared secondary indexes (default `[]`). -/
def selected_hints (model : PyModel) (hints : List Hint) : List Hint :=
  let tablename := find_table_name model
  let authorized_secondary_indexes := (PyModel.secondary_indexes model).getD []
  hints.filter (fun x =>
    x.table_name == tablename &&
      (x.attribute_ == "id" || authorized_secondary_indexes.contains x.attribute_))

/-- Embedding of rows.py line 208: reduce the selected hints to
`(attribute, value)` pairs. -/
def reduced_hints (model : PyModel) (hints : List Hint) : List (String × PyVal) :=
  (selected_hints model hints).map (fun x => (x.attribute_, x.value))

/-- Embedding of `wrap_with_lazy_value` (rows.py lines 145-154).
`desimplify` is the decoder obtained from `get_decoder(request_uuid)`,
passed in as a parameter (the decoder is an external collaborator). -/
def wrap_with_lazy_value (desimplify : Nat → PyVal → PyVal) (value : PyVal)
    (only_if_necessary : Bool) (request_uuid : Nat) : PyVal :=
  if value.isNone then PyVal.none
  else if only_if_necessary && (["int", "str", "float", "unicode"].contains (typeName value)) then
    value
  else
    match value with
    | .dict entries =>
      if entries.any (fun e => e.1 == "timezone") then
        desimplify request_uuid (.dict entries)
      else .lazy (.dict entries) request_uuid
    | v => .lazy v request_uuid

/-- Python `hasattr` applied to the selectables list itself: rows.py
lines 194 and 196 pass `models` — the Python list of selectables received
by `construct_rows` — to `has_attribute`.  A Python list object has
neither a `class_` nor a `_sa_class_manager` attribute, so the check is
`False` for every key the source asks about. -/
def selectables_list_has_attribute (_models : List Selectable) (_key : String) : Bool :=
  false

/-- Embedding of rows.py lines 182-190: the attribute list iterated for
one selectable of the model set.  `Option.none` models the uncaught
`AttributeError` raised when, for a `"*"` request, the model has no
`_sa_class_manager` and no `class_` to fall back to. -/
def selected_attributes_of (s : Selectable) : Option (List String) :=
  if s._attributes == "*" then
    match PyModel.sa_class_manager s._model with
    | Option.some mgr => Option.some (mgr.map Prod.fst)
    | Option.none =>
      match PyModel.class_ s._model with
      | Option.some c => Option.some (c.sa_class_manager.map Prod.fst)
      | Option.none => Option.none
  else Option.some [s._attributes]

/-- Embedding of rows.py lines 193-197: the `attribute` computed for one
field.  The outer `Option` models exceptions (`AttributeError` or
`KeyError` inside the branches), the inner `Option` is the `attribute`
variable itself, which starts as `None`. -/
def introspect_column (models : List Selectable) (s : Selectable) (field : String) :
    Option (Option String) :=
  if selectables_list_has_attribute models "class_" then
    match PyModel.class_ s._model with
    | Option.none => Option.none
    | Option.some c =>
      match c.sa_class_manager.lookup field with
      | Option.none => Option.none
      | Option.some str => Option.some (Option.some str)
  else if selectables_list_has_attribute models "_sa_class_manager" then
    match PyModel.sa_class_manager s._model with
    | Option.none => Option.none
    | Option.some mgr =>
      match mgr.lookup field with
      | Option.none => Option.none
      | Option.some str => Option.some (Option.some str)
  else Option.some Option.none

/-- Embedding of rows.py lines 198-199: `columns` is a Python set, so an
attribute is added only when absent; a `None` attribute is skipped. -/
def add_column (columns : List String) (attr : Option String) : List String :=
  match attr with
  | Option.none => columns
  | Option.some a => if columns.contains a then columns else columns ++ [a]

/-- Embedding of the inner `for field in selected_attributes` loop of
rows.py lines 192-199. -/
def fields_loop (models : List Selectable) (s : Selectable) (fields : List String)
    (columns : List String) : Option (List String) :=
  fields.foldlM (fun cols field => (introspect_column models s field).map (add_column cols))
    columns

/-- Recursive worker of `fields_phase`: iterate the model set, threading
the `columns` accumulator; `Option.none` propagates a raised exception. -/
def fields_phase_go (models : List Selectable) (columns : List String) :
    List Selectable → Option (List String)
  | [] => Option.some columns
  | s :: rest =>
    match selected_attributes_of s with
    | Option.none => Option.none
    | Option.some fields =>
      match fields_loop models s fields columns with
      | Option.none => Option.none
      | Option.some cols2 => fields_phase_go models cols2 rest

/-- Embedding of the "Get the fields of the join result" loop
(rows.py lines 180-199), restricted to the accumulation of the `columns`
set; the `labels` accumulated by the same loop are `pipeline_labels`. -/
def fields_phase (models : List Selectable) (model_set : List Selectable) :
    Option (List String) :=
  fields_phase_go models [] model_set

/-- Embedding of the "Loading objects" loop (rows.py lines 203-210):
one `get_objects` call per resolved model, with the reduced hints.
`get_objects` is the external object-store read API, taking the table
name, the request uuid and the reduced hints. -/
def loaded_objects (get_objects : String → Nat → List (String × PyVal) → List PyVal)
    (models : List Selectable) (hints : List Hint) (request_uuid : Nat) :
    List (List PyVal) :=
  (extract_models models).map
    (fun s =>
      get_objects (find_table_name s._model) request_uuid (reduced_hints s._model hints))

/-- The `showable_selection` of rows.py line 228: selectables that are
not hidden, or are functions. -/
def showable_selection (models : List Selectable) : List Selectable :=
  models.filter (fun x => !x.is_hidden || x._is_function)

/-- Embedding of rows.py lines 250-255: the per-selectable sub-value of a
row in the no-function branch. -/
def sub_value (row : PyVal) (selection : Selectable) : PyVal :=
  let key := find_table_name selection._model
  if !is_novabase row && has_attribute row key then get_attribute row key PyVal.none
  else row

/-- Embedding of rows.py lines 244-260: the `final_row` list accumulated
for one row in the no-function branch, before lazy wrapping.  Function
selectables contribute their evaluation on the full row set; other
selectables contribute their sub-value (or its requested attribute)
unless that sub-value is `None`, in which case nothing is appended. -/
def project_row (rows : List PyVal) (row : PyVal) : List Selectable → List PyVal
  | [] => []
  | selection :: rest =>
    (if selection._is_function then [selection._function rows]
     else
       let value := sub_value row selection
       if value.isNone then []
       else if selection._attributes != "*" then
         [get_attribute value selection._attributes PyVal.none]
       else [value]) ++ project_row rows row rest

/-- Embedding of the `else` (no-function) branch of the "Selecting
attributes" phase, rows.py lines 243-265. -/
def select_attributes_no_fn (desimplify : Nat → PyVal → PyVal) (request_uuid : Nat)
    (models : List Selectable) (rows : List PyVal) : List PyVal :=
  let showable := showable_selection models
  rows.foldl
    (fun final_rows row =>
      let final_row := (project_row rows row showable).map
        (fun x => wrap_with_lazy_value desimplify x true request_uuid)
      if showable.length == 1 then final_rows ++ final_row
      else final_rows ++ [PyVal.list final_row])
    []

/-- Embedding of the "Selecting attributes" phase, rows.py lines 227-265:
when any non-hidden selectable is a function, a single synthesized row is
returned (function results and `None` placeholders, each decoded eagerly
with the request's decoder); otherwise the per-row branch
`select_attributes_no_fn` runs. -/
def select_attributes (desimplify : Nat → PyVal → PyVal) (request_uuid : Nat)
    (models : List Selectable) (rows : List PyVal) : List PyVal :=
  if any_selectable_is_function models then
    [PyVal.list (((showable_selection models).map
        (fun selection =>
          if selection._is_function then selection._function rows else PyVal.none)).map
      (desimplify request_uuid))]
  else
    select_attributes_no_fn desimplify request_uuid models rows

mutual

/-- Formalisation of claim C6's wording (spec section 4.1): a composite is
resolved through "a `clauses` sequence whose first resolvable clause
recursively yields the name" — i.e. unresolvable clauses are skipped
until a clause resolves.  This follows the spec's words, to be compared
with the source translation `find_table_name`. -/
def find_table_name_first_resolvable : PyModel → String
  | .mk tn tbl cls hc cl _ _ =>
    match tn with
    | Option.some s => s
    | Option.none =>
      match tbl with
      | Option.some t => t.name
      | Option.none =>
        match cls with
        | Option.some c => c.tablename
        | Option.none => if hc then first_resolvable_clause cl else "none"

/-- Worker of `find_table_name_first_resolvable`: the resolution of the
first clause that does not resolve to the sentinel. -/
def first_resolvable_clause : List PyModel → String
  | [] => "none"
  | c :: rest =>
    let n := find_table_name_first_resolvable c
    if n != "none" then n else first_resolvable_clause rest

end

/-- Formalisation of the amended claim C6, written as the disjoint-shape
tagged-variant resolution of spec section 9 (Named / TableDescriptor /
MappedClass / CompositeClause, else sentinel): a composite is resolved by
recursing into its first clause, whatever that clause resolves to, and
every unresolvable model yields the sentinel `"none"`. -/
def find_table_name_spec : PyModel → String
  | .mk (Option.some s) _ _ _ _ _ _ => s
  | .mk Option.none (Option.some t) _ _ _ _ _ => t.name
  | .mk Option.none Option.none (Option.some c) _ _ _ _ => c.tablename
  | .mk Option.none Option.none Option.none true (c :: _) _ _ => find_table_name_spec c
  | .mk Option.none Option.none Option.none true [] _ _ => "none"
  | .mk Option.none Option.none Option.none false _ _ _ => "none"

/-- First-occurrence deduplication of selectables by their model: keep
the head, drop every later selectable with the same model.  Used to state
what `extract_models` computes. -/
def dedup_by_model : List Selectable → List Selectable
  | [] => []
  | s :: rest => s :: dedup_by_model (rest.filter (fun x => !(x._model == s._model)))
termination_by l => l.length
decreasing_by
  simp only [List.length_cons]
  exact Nat.lt_succ_of_le (List.length_filter_le _ _)

/-- Identity decoder used in concrete witnesses. -/
def exId : Nat → PyVal → PyVal := fun _ v => v

/-- Concrete model with a direct `__tablename__` of `"services"`. -/
def exModelA : PyModel :=
  PyModel.mk (Option.some "services") Option.none Option.none false [] Option.none
    Option.none

/-- Concrete model with a direct `__tablename__` of `"hosts"`. -/
def exModelB : PyModel :=
  PyModel.mk (Option.some "hosts") Option.none Option.none false [] Option.none
    Option.none

/-- Concrete model carrying an `_sa_class_manager` declaring an `id`
attribute rendered as `"services.id"`. -/
def exModelMgr : PyModel :=
  PyModel.mk (Option.some "services") Option.none Option.none false []
    (Option.some [("id", "services.id")]) Option.none

/-- Concrete model with no resolvable attribute at all. -/
def exUnresolvable : PyModel :=
  PyModel.mk Option.none Option.none Option.none false [] Option.none Option.none

/-- Concrete composite model whose first clause is unresolvable and whose
second clause resolves to `"services"`. -/
def exComposite : PyModel :=
  PyModel.mk Option.none Option.none Option.none true [exUnresolvable, exModelA]
    Option.none Option.none

/-- The `count(rows)` computed column of spec scenario 3. -/
def exCount : List PyVal → PyVal := fun rows => PyVal.int rows.length

/-- Placeholder callable for non-function selectables. -/
def exNoFn : List PyVal → PyVal := fun _ => PyVal.none

/-- A hidden function selectable computing `count(rows)`. -/
def exHiddenFnSel : Selectable := ⟨exModelA, "*", true, true, exCount⟩

/-- A visible non-function selectable requesting attribute `"host"` of
`exModelB`. -/
def exColSel : Selectable := ⟨exModelB, "host", false, false, exNoFn⟩

/-- A second selectable over the same entity as `exColSel`, requesting
`"*"`. -/
def exSelA2 : Selectable := ⟨exModelB, "*", false, false, exNoFn⟩

/-- A non-function selectable over `exModelA`. -/
def exSelB : Selectable := ⟨exModelA, "*", false, false, exNoFn⟩

/-- A non-function selectable requesting `"id"` on `exModelMgr`. -/
def exIdSel : Selectable := ⟨exModelMgr, "id", false, false, exNoFn⟩

/-- A composite row exposing the label `"hosts"`, whose sub-value is a
raw novabase object with a `"host"` attribute. -/
def exRow1 : PyVal :=
  PyVal.obj false [("hosts", PyVal.obj true [("host", PyVal.str "host1")])]

theorem extract_models_go_eq_dedup :
    ∀ (l : List Selectable) (processed : List PyModel),
      extract_models_go l processed =
        dedup_by_model (l.filter (fun x => !processed.contains x._model))
  | [], processed => by simp [extract_models_go, dedup_by_model]
  | s :: rest, processed => by
    rw [extract_models_go]
    by_cases hc : processed.contains s._model = true
    · rw [if_pos hc]
      have hfc : (s :: rest).filter (fun x => !processed.contains x._model) =
          rest.filter (fun x => !processed.contains x._model) := by
        rw [List.filter_cons, hc]
        simp
      rw [hfc]
      exact extract_models_go_eq_dedup rest processed
    · rw [if_neg hc]
      have hfc : (s :: rest).filter (fun x => !processed.contains x._model) =
          s :: rest.filter (fun x => !processed.contains x._model) := by
        rw [List.filter_cons, Bool.eq_false_iff.mpr hc]
        simp
      rw [hfc, dedup_by_model]
      congr 1
      rw [List.filter_filter]
      rw [extract_models_go_eq_dedup rest (s._model :: processed)]
      congr 1
      apply List.filter_congr
      intro x _
      by_cases h1 : x._model = s._model <;> by_cases h2 : processed.contains x._model = true <;>
        simp [List.contains_cons, h1, h2]

theorem extract_models_eq_dedup (l : List Selectable) :
    extract_models l = dedup_by_model (l.filter (fun x => !x._is_function)) := by
  rw [extract_models, extract_models_go_eq_dedup]
  congr 1
  exact List.filter_eq_self.mpr (fun a _ => rfl)

theorem mem_dedup_by_model_models {m : PyModel} :
    ∀ {l : List Selectable}, m ∈ (dedup_by_model l).map (fun s => s._model) →
      m ∈ l.map (fun s => s._model)
  | [] => by simp [dedup_by_model]
  | s :: rest => by
    rw [dedup_by_model]
    intro hm
    simp only [List.map_cons, List.mem_cons] at hm ⊢
    rcases hm with hm | hm
    · exact Or.inl hm
    · have := mem_dedup_by_model_models hm
      rw [List.mem_map] at this
      obtain ⟨x, hx, hxm⟩ := this
      rw [List.mem_filter] at hx
      exact Or.inr (List.mem_map.mpr ⟨x, hx.1, hxm⟩)
termination_by l => l.length
decreasing_by
  simp only [List.length_cons]
  exact Nat.lt_succ_of_le (List.length_filter_le _ _)

theorem nodup_dedup_by_model_models :
    ∀ (l : List Selectable), ((dedup_by_model l).map (fun s => s._model)).Nodup
  | [] => by simp [dedup_by_model]
  | s :: rest => by
    rw [dedup_by_model]
    simp only [List.map_cons, List.nodup_cons]
    constructor
    · intro hmem
      have := mem_dedup_by_model_models hmem
      rw [List.mem_map] at this
      obtain ⟨x, hx, hxm⟩ := this
      rw [List.mem_filter] at hx
      have := hx.2
      rw [hxm] at this
      simp at this
    · exact nodup_dedup_by_model_models (rest.filter (fun x => !(x._model == s._model)))
termination_by l => l.length
decreasing_by
  simp only [List.length_cons]
  exact Nat.lt_succ_of_le (List.length_filter_le _ _)

theorem mem_models_dedup_by_model {s : Selectable} :
    ∀ {l : List Selectable}, s ∈ l →
      s._model ∈ (dedup_by_model l).map (fun x => x._model)
  | [] => by simp
  | a :: rest => by
    intro hs
    rw [dedup_by_model]
    simp only [List.map_cons, List.mem_cons]
    rcases List.mem_cons.mp hs with hs | hs
    · exact Or.inl (by rw [hs])
    · by_cases hm : s._model = a._model
      · exact Or.inl hm
      · refine Or.inr (mem_models_dedup_by_model (List.mem_filter.mpr ⟨hs, ?_⟩))
        simp [hm]
termination_by l => l.length
decreasing_by
  simp only [List.length_cons]
  exact Nat.lt_succ_of_le (List.length_filter_le _ _)

theorem foldl_append_flatMap {γ : Type} (f : γ → List PyVal) :
    ∀ (l : List γ) (acc : List PyVal),
      l.foldl (fun a r => a ++ f r) acc = acc ++ l.flatMap f
  | [], acc => by simp
  | x :: xs, acc => by
    rw [List.foldl_cons, foldl_append_flatMap f xs (acc ++ f x)]
    simp [List.flatMap_cons]

theorem foldl_append_map {γ : Type} (g : γ → PyVal) :
    ∀ (l : List γ) (acc : List PyVal),
      l.foldl (fun a r => a ++ [g r]) acc = acc ++ l.map g
  | [], acc => by simp
  | x :: xs, acc => by
    rw [List.foldl_cons, foldl_append_map g xs (acc ++ [g x])]
    simp

theorem function_value_mem_project_row {sel : Selectable} (rows : List PyVal)
    (row : PyVal) (hfn : sel._is_function = true) :
    ∀ {sels : List Selectable}, sel ∈ sels →
      sel._function rows ∈ project_row rows row sels
  | [], h => absurd h (List.not_mem_nil sel)
  | a :: rest, h => by
    rw [project_row]
    rcases List.mem_cons.mp h with heq | hmem
    · subst heq
      rw [hfn]
      exact List.mem_append_left _ (List.mem_singleton.mpr rfl)
    · exact List.mem_append_right _
        (function_value_mem_project_row rows row hfn hmem)

theorem project_row_no_fn_eq_filterMap (rows : List PyVal) (row : PyVal) :
    ∀ (sels : List Selectable), (∀ s ∈ sels, s._is_function = false) →
      project_row rows row sels = sels.filterMap (fun s =>
        let v := sub_value row s
        if v.isNone then Option.none
        else if s._attributes != "*" then
          Option.some (get_attribute v s._attributes PyVal.none)
        else Option.some v)
  | [], _ => by simp [project_row]
  | a :: rest, h => by
    rw [project_row, List.filterMap_cons,
      project_row_no_fn_eq_filterMap rows row rest (fun s hs => h s (List.mem_cons_of_mem a hs))]
    rw [h a (List.mem_cons_self a rest)]
    by_cases hv : (sub_value row a).isNone = true
    · simp [hv]
    · by_cases ha : (a._attributes != "*") = true
      · simp [hv, ha]
      · simp [hv, ha]

theorem any_selectable_is_function_eq_false_of_hidden {models : List Selectable}
    (h : ∀ s ∈ models, s._is_function = true → s.is_hidden = true) :
    any_selectable_is_function models = false := by
  rw [any_selectable_is_function]
  rw [List.any_eq_false]
  intro x hx
  rw [List.mem_filter] at hx
  intro hfn
  have := h x hx.1 hfn
  rw [this] at hx
  simp at hx

theorem introspect_column_eq (models : List Selectable) (s : Selectable) (field : String) :
    introspect_column models s field = Option.some Option.none := rfl

theorem fields_loop_eq (models : List Selectable) (s : Selectable) :
    ∀ (fields : List String) (columns : List String),
      fields_loop models s fields columns = Option.some columns
  | [], columns => rfl
  | f :: fs, columns => by
    rw [fields_loop] at *
    rw [List.foldlM_cons, introspect_column_eq]
    exact fields_loop_eq models s fs columns

theorem fields_phase_go_pres (models : List Selectable) (columns : List String) :
    ∀ (model_set : List Selectable),
      fields_phase_go models columns model_set = Option.none ∨
        fields_phase_go models columns model_set = Option.some columns
  | [] => Or.inr rfl
  | s :: rest => by
    rw [fields_phase_go]
    cases hsel : selected_attributes_of s with
    | none => simp [hsel]
    | some fields =>
      simp only [hsel, fields_loop_eq]
      exact fields_phase_go_pres models columns rest

theorem fields_phase_none_or_empty (models : List Selectable)
    (model_set : List Selectable) :
    fields_phase models model_set = Option.none ∨
      fields_phase models model_set = Option.some [] :=
  fields_phase_go_pres models [] model_set

theorem find_table_name_eq_spec :
    ∀ (m : PyModel), find_table_name m = find_table_name_spec m
  | .mk (Option.some s) tbl cls hc cl mgr si => by
    rw [find_table_name, find_table_name_spec]
  | .mk Option.none (Option.some t) cls hc cl mgr si => by
    rw [find_table_name, find_table_name_spec]
  | .mk Option.none Option.none (Option.some c) hc cl mgr si => by
    rw [find_table_name, find_table_name_spec]
  | .mk Option.none Option.none Option.none true (c :: rest) mgr si => by
    rw [find_table_name, find_table_name_spec]
    simp only [if_true]
    exact find_table_name_eq_spec c
  | .mk Option.none Option.none Option.none true [] mgr si => by
    rw [find_table_name, find_table_name_spec]
    simp
  | .mk Option.none Option.none Option.none false cl mgr si => by
    rw [find_table_name.eq_def, find_table_name_spec]
    simp

/-- Claim C10: for a `None` input value, `wrap_with_lazy_value` returns
`None` unchanged — a null value is never wrapped in a deferred handle and
never sent to the decoder, regardless of the `only_if_necessary` flag or
the request correlation id (the result does not depend on `desimplify`,
`only_if_necessary` or `request_uuid`). -/
theorem wrap_with_lazy_value_none (desimplify : Nat → PyVal → PyVal)
    (only_if_necessary : Bool) (request_uuid : Nat) :
    wrap_with_lazy_value desimplify PyVal.none only_if_necessary request_uuid =
      PyVal.none := rfl

/-- Claim C6, counterexample: on a composite whose first clause is
unresolvable but whose second clause resolves, `find_table_name` returns
the sentinel `"none"`, while the claim's "first resolvable clause"
reading (`find_table_name_first_resolvable`) yields `"services"` — so the
claim as stated is false for this model. -/
theorem find_table_name_first_clause_counterexample :
    find_table_name exComposite = "none" ∧
    find_table_name_first_resolvable exComposite = "services" ∧
    find_table_name exComposite ≠ find_table_name_first_resolvable exComposite := by
  refine ⟨rfl, rfl, ?_⟩
  intro h
  rw [show find_table_name exComposite = "none" from rfl,
    show find_table_name_first_resolvable exComposite = "services" from rfl] at h
  exact absurd h (by decide)

/-- Claim C6, amended: `find_table_name` resolves the four shapes
uniformly — direct `__tablename__`, `table` descriptor, mapped `class_`,
and a composite with a `clauses` sequence, resolved by recursing into its
FIRST clause (whatever that clause resolves to) — and returns the
sentinel `"none"` for every unresolvable model, never raising (the
function is total).  Stated as agreement with the disjoint-shape
resolution `find_table_name_spec`. -/
theorem find_table_name_resolves_by_shape (m : PyModel) :
    find_table_name m = find_table_name_spec m :=
  find_table_name_eq_spec m

/-- Claim C5 (code bug): the `columns` set accumulated by the field loop
is empty for every input (or the loop raises while introspecting `"*"`),
because the source checks `has_attribute(models, "class_")` and
`has_attribute(models, "_sa_class_manager")` on the selectables LIST
instead of on the selectable's model, and a Python list has neither
attribute; in particular, for the selectable `exIdSel` requesting `"id"`
on a model whose class manager declares it, no column is accumulated. -/
theorem fields_phase_accumulates_nothing :
    (∀ (models model_set : List Selectable),
      fields_phase models model_set = Option.none ∨
        fields_phase models model_set = Option.some []) ∧
    fields_phase [exIdSel] [exIdSel] = Option.some [] :=
  ⟨fun models model_set => fields_phase_none_or_empty models model_set, rfl⟩

/-- Claim C2, counterexample: a row whose sub-value for the (single)
visible non-function selectable is `None` contributes NO entry to the
projected value list — the list has length `0`, not one entry per such
selectable as the claim states. -/
theorem project_row_skips_none_counterexample :
    (project_row [PyVal.none] PyVal.none [exColSel]).length ≠ 1 := by decide

/-- Claim C2, amended: in the no-function branch, for every row the
projected value list contains one entry for each visible non-function
selectable in original order WHOSE sub-value is not `None` (a `None`
sub-value contributes no entry): the sub-value at the entity's label when
the row is a composite having that label, otherwise the row itself; and
when a specific attribute (not `"*"`) was requested, that attribute's
value is used instead of the whole sub-value. -/
theorem project_row_entries_characterization (rows : List PyVal) (row : PyVal)
    (sels : List Selectable) (h : ∀ s ∈ sels, s._is_function = false) :
    project_row rows row sels = sels.filterMap (fun s =>
      let v := sub_value row s
      if v.isNone then Option.none
      else if s._attributes != "*" then
        Option.some (get_attribute v s._attributes PyVal.none)
      else Option.some v) :=
  project_row_no_fn_eq_filterMap rows row sels h

/-- Witness for C2's amended theorem at a concrete composite row: the
hypothesis holds for `[exColSel]` and the projected list extracts the
requested `"host"` attribute of the `"hosts"` sub-value. -/
theorem project_row_entries_characterization_witness :
    (∀ s ∈ [exColSel], s._is_function = false) ∧
    project_row [exRow1] exRow1 [exColSel] = [PyVal.str "host1"] := by
  have hno : ∀ s ∈ [exColSel], s._is_function = false := by
    intro s hs
    rw [List.mem_singleton] at hs
    subst hs
    rfl
  refine ⟨hno, ?_⟩
  rw [project_row_entries_characterization [exRow1] exRow1 [exColSel] hno]
  rfl

/-- Claim C3, counterexample: a boolean value does NOT pass through
unwrapped — `type(True).__name__` is `"bool"`, which is not in the
source's primitive list `["int", "str", "float", "unicode"]`, so the
value becomes a deferred `LazyValue` handle, contradicting the claim that
boolean primitives pass through. -/
theorem wrap_bool_not_primitive_counterexample :
    wrap_with_lazy_value exId (PyVal.bool true) true 0 =
      PyVal.lazy (PyVal.bool true) 0 ∧
    wrap_with_lazy_value exId (PyVal.bool true) true 0 ≠ PyVal.bool true := by
  refine ⟨rfl, ?_⟩
  intro h
  have h2 : PyVal.lazy (PyVal.bool true) 0 = PyVal.bool true := h
  exact PyVal.noConfusion h2

/-- Claim C3, amended: for every non-`None` value wrapped with
`only_if_necessary` (the call mode of the no-function branch), values
whose type name is `int`, `str`, `float` or `unicode` pass through
unwrapped (booleans are NOT in that list); a dict containing the key
`"timezone"` is decoded eagerly via the decoder for the request's
correlation id; every other value — booleans included — becomes a
deferred `LazyValue` handle carrying the request correlation id. -/
theorem wrap_with_lazy_value_characterization (desimplify : Nat → PyVal → PyVal)
    (request_uuid : Nat) (v : PyVal) (hv : v.isNone = false) :
    ((["int", "str", "float", "unicode"].contains (typeName v)) = true →
      wrap_with_lazy_value desimplify v true request_uuid = v) ∧
    (∀ entries, v = PyVal.dict entries →
      entries.any (fun e => e.1 == "timezone") = true →
      wrap_with_lazy_value desimplify v true request_uuid =
        desimplify request_uuid v) ∧
    ((["int", "str", "float", "unicode"].contains (typeName v)) = false →
      (∀ entries, v = PyVal.dict entries →
        entries.any (fun e => e.1 == "timezone") = false) →
      wrap_with_lazy_value desimplify v true request_uuid =
        PyVal.lazy v request_uuid) := by
  refine ⟨?_, ?_, ?_⟩
  · intro hprim
    cases v with
    | none => simp [PyVal.isNone] at hv
    | int n => rfl
    | float p => rfl
    | str s => rfl
    | unicode s => rfl
    | bool b => simp [typeName] at hprim
    | dict _entries => simp [typeName] at hprim
    | obj isNova fields => simp [typeName] at hprim
    | list elems => simp [typeName] at hprim
    | lazy w u => simp [typeName] at hprim
  · intro entries he ht
    subst he
    rw [wrap_with_lazy_value]
    simp [PyVal.isNone, typeName, ht]
  · intro hprim hdict
    cases v with
    | none => simp [PyVal.isNone] at hv
    | int n => simp [typeName] at hprim
    | float p => simp [typeName] at hprim
    | str s => simp [typeName] at hprim
    | unicode s => simp [typeName] at hprim
    | bool b =>
      rw [wrap_with_lazy_value]
      simp [PyVal.isNone, typeName]
      exact fun entries he => PyVal.noConfusion he
    | dict entries =>
      rw [wrap_with_lazy_value]
      simp [PyVal.isNone, typeName, hdict entries rfl]
    | obj isNova fields =>
      rw [wrap_with_lazy_value]
      simp [PyVal.isNone, typeName]
      exact fun entries he => PyVal.noConfusion he
    | list elems =>
      rw [wrap_with_lazy_value]
      simp [PyVal.isNone, typeName]
      exact fun entries he => PyVal.noConfusion he
    | lazy w u =>
      rw [wrap_with_lazy_value]
      simp [PyVal.isNone, typeName]
      exact fun entries he => PyVal.noConfusion he

/-- Witness for C3's amended theorem: a raw object (neither primitive nor
decoded-marker dict) becomes a `LazyValue` carrying the request id. -/
theorem wrap_with_lazy_value_characterization_witness :
    (PyVal.obj true []).isNone = false ∧
    wrap_with_lazy_value exId (PyVal.obj true []) true 7 =
      PyVal.lazy (PyVal.obj true []) 7 :=
  ⟨rfl,
    (wrap_with_lazy_value_characterization exId 7 (PyVal.obj true []) rfl).2.2 rfl
      (fun _entries he => PyVal.noConfusion he)⟩

/-- Claim C4, counterexample: with exactly one visible non-function
column, a row whose projected sub-value is `None` contributes NOTHING to
the final sequence (not a single scalar): one input row yields an empty
final sequence, so the claim's "each row contributes a single scalar" is
false at this input. -/
theorem select_attributes_flatten_counterexample :
    (select_attributes exId 0 [exColSel] [PyVal.none]).length ≠
      ([PyVal.none] : List PyVal).length := by decide

/-- Claim C4, amended: in the no-function branch, if and only if the
selection list resolves to exactly one visible column, each row
contributes its projected wrapped values directly to the final sequence —
at most one scalar, and none at all when the projected sub-value is
`None` — instead of a one-element list; with any other number of visible
columns, each row contributes exactly one list of projected values. -/
theorem select_attributes_flatten_iff (desimplify : Nat → PyVal → PyVal)
    (request_uuid : Nat) (models : List Selectable) (rows : List PyVal)
    (hany : any_selectable_is_function models = false) :
    ((showable_selection models).length = 1 →
      select_attributes desimplify request_uuid models rows =
        rows.flatMap (fun row =>
          (project_row rows row (showable_selection models)).map
            (fun x => wrap_with_lazy_value desimplify x true request_uuid))) ∧
    ((showable_selection models).length ≠ 1 →
      select_attributes desimplify request_uuid models rows =
        rows.map (fun row => PyVal.list
          ((project_row rows row (showable_selection models)).map
            (fun x => wrap_with_lazy_value desimplify x true request_uuid)))) := by
  rw [select_attributes, if_neg (by simp [hany])]
  constructor
  · intro hlen
    rw [select_attributes_no_fn]
    simp only [hlen, beq_self_eq_true, if_true]
    rw [foldl_append_flatMap]
    simp
  · intro hlen
    rw [select_attributes_no_fn]
    have hb : ((showable_selection models).length == 1) = false :=
      beq_eq_false_iff_ne.mpr hlen
    simp only [hb, Bool.false_eq_true, if_false]
    rw [foldl_append_map]
    simp

/-- Witness for C4's amended theorem at spec scenario 4: one visible
non-function column flattens the final sequence to bare scalars. -/
theorem select_attributes_flatten_iff_witness :
    any_selectable_is_function [exColSel] = false ∧
    (showable_selection [exColSel]).length = 1 ∧
    select_attributes exId 0 [exColSel] [exRow1] = [PyVal.str "host1"] := by
  refine ⟨rfl, rfl, ?_⟩
  rw [(select_attributes_flatten_iff exId 0 [exColSel] [exRow1] rfl).1 rfl]
  rfl

/-- Claim C9: when every function selectable is hidden (and at least one
exists), the branch test — which only inspects non-hidden selectables —
is false, so `construct_rows` takes the per-row (no-function) branch; yet
each hidden function selectable is still part of the visible selection,
and its evaluation against the full row set appears (lazily wrapped, like
every projected value of that branch) in every projected row. -/
theorem hidden_function_selectables_still_projected
    (desimplify : Nat → PyVal → PyVal) (request_uuid : Nat)
    (models : List Selectable) (rows : List PyVal) (sel : Selectable)
    (hhidden : ∀ s ∈ models, s._is_function = true → s.is_hidden = true)
    (hmem : sel ∈ models) (hfn : sel._is_function = true) :
    any_selectable_is_function models = false ∧
    select_attributes desimplify request_uuid models rows =
      select_attributes_no_fn desimplify request_uuid models rows ∧
    sel ∈ showable_selection models ∧
    ∀ row, sel._function rows ∈ project_row rows row (showable_selection models) ∧
      wrap_with_lazy_value desimplify (sel._function rows) true request_uuid ∈
        (project_row rows row (showable_selection models)).map
          (fun x => wrap_with_lazy_value desimplify x true request_uuid) := by
  have hany := any_selectable_is_function_eq_false_of_hidden hhidden
  have hshow : sel ∈ showable_selection models := by
    rw [showable_selection, List.mem_filter]
    exact ⟨hmem, by rw [hfn, Bool.or_true]⟩
  refine ⟨hany, ?_, hshow, ?_⟩
  · rw [select_attributes, if_neg (by simp [hany])]
  · intro row
    have hval := function_value_mem_project_row rows row hfn hshow
    exact ⟨hval, List.mem_map_of_mem _ hval⟩

/-- Witness for C9: a hidden `count(rows)` selectable next to a visible
column — the branch test is false and the count value `1` appears in the
projected row. -/
theorem hidden_function_selectables_still_projected_witness :
    any_selectable_is_function [exHiddenFnSel, exColSel] = false ∧
    PyVal.int 1 ∈ project_row [exRow1] exRow1
      (showable_selection [exHiddenFnSel, exColSel]) := by
  have hhidden : ∀ s ∈ [exHiddenFnSel, exColSel],
      s._is_function = true → s.is_hidden = true := by
    intro s hs
    rcases List.mem_cons.mp hs with h1 | hs2
    · subst h1
      intro _
      rfl
    · rcases List.mem_cons.mp hs2 with h2 | h3
      · subst h2
        intro hx
        exact absurd hx (by decide)
      · exact absurd h3 (List.not_mem_nil s)
  have h := hidden_function_selectables_still_projected exId 0
    [exHiddenFnSel, exColSel] [exRow1] exHiddenFnSel hhidden
    (List.mem_cons_self _ _) rfl
  exact ⟨h.1, (h.2.2.2 exRow1).1⟩

/-- Claim C8: `extract_models` keeps, in order of first occurrence, one
selectable per distinct entity (entity identity modelled as structural
model equality), skipping function selectables: it equals the
first-occurrence deduplication of the non-function selectables, its model
list has no duplicates, every non-function selectable's model is
represented, and each represented model occurs exactly once. -/
theorem extract_models_dedup_characterization (l : List Selectable) :
    extract_models l = dedup_by_model (l.filter (fun x => !x._is_function)) ∧
    ((extract_models l).map (fun s => s._model)).Nodup ∧
    (∀ s ∈ l, s._is_function = false →
      s._model ∈ (extract_models l).map (fun x => x._model)) ∧
    (∀ s ∈ extract_models l,
      ((extract_models l).map (fun x => x._model)).count s._model = 1) := by
  have heq := extract_models_eq_dedup l
  refine ⟨heq, ?_, ?_, ?_⟩
  · rw [heq]
    exact nodup_dedup_by_model_models _
  · intro s hs hfn
    rw [heq]
    exact mem_models_dedup_by_model (List.mem_filter.mpr ⟨hs, by rw [hfn]; rfl⟩)
  · intro s hs
    apply List.count_eq_one_of_mem
    · exact (heq ▸ nodup_dedup_by_model_models _ :
        ((extract_models l).map (fun x => x._model)).Nodup)
    · exact List.mem_map_of_mem _ hs

/-- Witness for C8 at the spec's `[A, A, B]` scenario: two selectables
over the same entity and one over another — the deduplicated model list
contains the shared entity exactly once. -/
theorem extract_models_dedup_characterization_witness :
    exModelB ∈ (extract_models [exColSel, exSelA2, exSelB]).map (fun x => x._model) ∧
    ((extract_models [exColSel, exSelA2, exSelB]).map (fun x => x._model)).count
      exModelB = 1 := by
  have h := extract_models_dedup_characterization [exColSel, exSelA2, exSelB]
  refine ⟨h.2.2.1 exColSel (List.mem_cons_self _ _) rfl, ?_⟩
  exact h.2.2.2 exColSel
    (show exColSel ∈ [exColSel, exSelB] from List.mem_cons_self _ _)

/-- Claim C7: a hint is retained if and only if its table name equals the
entity's resolved table name and its attribute is `"id"` or lies in the
entity's declared secondary-index list (default empty); the reduced hints
are exactly the `(attribute, value)` pairs of the retained hints (table
name dropped), and they are what the object-loading phase passes to
`get_objects` for each resolved entity. -/
theorem hint_filter_characterization (model : PyModel) (hints : List Hint) :
    (∀ h : Hint, h ∈ selected_hints model hints ↔
      (h ∈ hints ∧ h.table_name = find_table_name model ∧
        (h.attribute_ = "id" ∨
          h.attribute_ ∈ (PyModel.secondary_indexes model).getD []))) ∧
    reduced_hints model hints =
      (selected_hints model hints).map (fun x => (x.attribute_, x.value)) ∧
    (∀ (get_objects : String → Nat → List (String × PyVal) → List PyVal)
        (models : List Selectable) (request_uuid : Nat),
      loaded_objects get_objects models hints request_uuid =
        (extract_models models).map (fun s =>
          get_objects (find_table_name s._model) request_uuid
            (reduced_hints s._model hints))) := by
  refine ⟨?_, rfl, fun _ _ _ => rfl⟩
  intro h
  rw [selected_hints, List.mem_filter]
  constructor
  · rintro ⟨hmem, hcond⟩
    simp only [Bool.and_eq_true, Bool.or_eq_true, beq_iff_eq] at hcond
    refine ⟨hmem, hcond.1, ?_⟩
    rcases hcond.2 with ha | ha
    · exact Or.inl ha
    · exact Or.inr (by simpa using ha)
  · rintro ⟨hmem, ht, hattr⟩
    refine ⟨hmem, ?_⟩
    simp only [Bool.and_eq_true, Bool.or_eq_true, beq_iff_eq]
    refine ⟨ht, ?_⟩
    rcases hattr with ha | ha
    · exact Or.inl ha
    · exact Or.inr (by simpa using ha)

end Rome
